import Mathlib

/-!
Verification of the entity-merge pipeline of `lexmapr/ontofetch.py`.

The embedding models the `Ontology` class's merge and enrichment passes:
`do_entities`, `do_entity`, `do_entity_text` and `do_entity_synonyms`
(ontofetch.py lines 217-369).  Python dictionaries are modelled as ordered
association lists (`dictGet` / `dictSet` / `dictContains` mirror `d[k]`,
`d[k] = v` and `k in d` with insertion-order semantics), Python values
bound in a row are modelled by `Value`, and code that can raise is modelled
in `Except String`.  The helper module `ontohelper.py` is not part of the
sources; the handful of helpers the pipeline uses (`set_entity_default`,
`get_parent_id`, `SYNONYM_FIELDS`, the shapes of the text and synonym query
rows) are modelled from the specification, as marked in their doc comments.
-/

/-- A Python value stored in a row or record: a string binding, `None`,
or a list (used for `other_parents` and the synonym phrase lists). -/
inductive Value where
  | vStr : String → Value
  | vNone : Value
  | vList : List Value → Value

mutual

/-- Structural equality test on `Value`, mirroring Python `==` / `!=`
on strings, `None` and lists. -/
def Value.beq : Value → Value → Bool
  | .vStr a, .vStr b => a == b
  | .vNone, .vNone => true
  | .vList as, .vList bs => Value.beqList as bs
  | _, _ => false

/-- Elementwise equality test on lists of `Value`. -/
def Value.beqList : List Value → List Value → Bool
  | [], [] => true
  | a :: as, b :: bs => Value.beq a b && Value.beqList as bs
  | _, _ => false

end

mutual

/-- Python `repr` of a value (only used by `str()` on non-string values). -/
def Value.pyRepr : Value → String
  | .vStr s => "\x27" ++ s ++ "\x27"
  | .vNone => "None"
  | .vList l => "[" ++ Value.pyReprList l ++ "]"

/-- Comma-joined `repr`s of the elements of a list value. -/
def Value.pyReprList : List Value → String
  | [] => ""
  | [a] => Value.pyRepr a
  | a :: as => Value.pyRepr a ++ ", " ++ Value.pyReprList as

end

/-- Python `str()` of a value (ontofetch.py line 273 applies it to the id). -/
def pyStr : Value → String
  | .vStr s => s
  | v => v.pyRepr

/-- Python truthiness of a value, as used by `if parent_id and ...`
(line 291) and `if row[field]:` (line 358). -/
def truthy : Value → Bool
  | .vStr s => !(s == "")
  | .vNone => false
  | .vList l => !l.isEmpty

/-- Lookup in an ordered dictionary, mirroring Python `d[k]` /
`d.get(k)` (first — and only — entry with the given key). -/
def dictGet {α : Type} : List (String × α) → String → Option α
  | [], _ => none
  | p :: rest, k => if p.1 = k then some p.2 else dictGet rest k

/-- Membership test, mirroring Python `k in d`. -/
def dictContains {α : Type} (d : List (String × α)) (k : String) : Bool :=
  (dictGet d k).isSome

/-- Update/insert, mirroring Python `d[k] = v`: an existing key keeps its
position and gets the new value, a new key is appended at the end. -/
def dictSet {α : Type} : List (String × α) → String → α → List (String × α)
  | [], k, v => [(k, v)]
  | p :: rest, k, v => if p.1 = k then (k, v) :: rest else p :: dictSet rest k v

/-- Bulk update, mirroring Python `d.update(e)` (line 317). -/
def dictUpdate {α : Type} (d e : List (String × α)) : List (String × α) :=
  e.foldl (fun d p => dictSet d p.1 p.2) d

/-- A Python dict keyed by field name, one per row or entity record. -/
abbrev Record := List (String × Value)

/-- The `self.onto_helper.struct['specifications']` dictionary: id → record. -/
abbrev Table := List (String × Record)

/-- Replacement of every two-character escape sequence backslash-n by the
semicolon delimiter, mirroring Python's
`.replace('\\n', ';')` in ontofetch.py line 363 (left-to-right,
non-overlapping). -/
def escToSemi : List Char → List Char
  | [] => []
  | '\\' :: 'n' :: rest => ';' :: escToSemi rest
  | c :: rest => c :: escToSemi rest

/-- Whitespace characters removed by Python `str.strip()`. -/
def pyIsSpace (c : Char) : Bool :=
  c == ' ' || c == '\t' || c == '\n' || c == '\r' || c == '\x0b' || c == '\x0c'

/-- Python `str.strip()`: drop leading and trailing whitespace of the whole
string (ontofetch.py line 363). -/
def pyStrip (l : List Char) : List Char :=
  ((l.dropWhile pyIsSpace).reverse.dropWhile pyIsSpace).reverse

/-- Python `str.split(';')` (ontofetch.py line 363): the empty string
yields one empty piece, every semicolon starts a new piece. -/
def splitSemi : List Char → List (List Char)
  | [] => [[]]
  | c :: rest =>
    if c = ';' then [] :: splitSemi rest
    else
      match splitSemi rest with
      | [] => [[c]]
      | p :: ps => (c :: p) :: ps

/-- The synonym phrase cleanup chain of ontofetch.py line 363:
`row[field].replace('\\n', ';').strip().replace('"','').split(';')`. -/
def clean_phrases (raw : String) : List String :=
  (splitSemi ((pyStrip (escToSemi raw.toList)).filter (fun c => !(c == '"')))).map
    (fun l => String.mk l)

/-- Python `field.replace('_', ':', 1)` (ontofetch.py line 365): only the
first underscore becomes a colon. -/
def underToColon : List Char → List Char
  | [] => []
  | c :: rest => if c = '_' then ':' :: rest else c :: underToColon rest

/-- The record key a synonym category field is stored under
(ontofetch.py line 365). -/
def colonField (field : String) : String :=
  String.mk (underToColon field.toList)

/-- Result row of the `entity_text` query (ontofetch.py lines 124-136):
`SELECT DISTINCT ?label ?definition ?ui_label ?ui_definition`; each
variable is optional, an unbound variable is missing from `row.asdict()`. -/
structure TextRow where
  label : Option String
  definition : Option String
  ui_label : Option String
  ui_definition : Option String

/-- One key of `row.asdict()` when the variable is bound, none otherwise. -/
def optEntry (k : String) : Option String → Record
  | some s => [(k, Value.vStr s)]
  | none => []

/-- Python `row.asdict()` (ontofetch.py line 315): the bound variables of a
text row as a dictionary. -/
def TextRow.asdict (r : TextRow) : Record :=
  optEntry "label" r.label ++ optEntry "definition" r.definition ++
    optEntry "ui_label" r.ui_label ++ optEntry "ui_definition" r.ui_definition

/-- Modelled from the spec: the `entity_synonyms` query of the missing
`ontohelper.py` returns "at most one row with one optional raw delimited
string per recognized synonym category (broad, exact, narrow, plain
synonym; alternative term)"; this is one such row, `row[field]` being
`none` for an unbound category. -/
structure SynRow where
  synonym : Option String
  broad_synonym : Option String
  exact_synonym : Option String
  narrow_synonym : Option String
  alternative_term : Option String

/-- Python `row[field]` on a synonym query row (ontofetch.py line 358). -/
def SynRow.get (row : SynRow) : String → Option String
  | "synonym" => row.synonym
  | "broad_synonym" => row.broad_synonym
  | "exact_synonym" => row.exact_synonym
  | "narrow_synonym" => row.narrow_synonym
  | "alternative_term" => row.alternative_term
  | _ => none

/-- Modelled from the spec: `SYNONYM_FIELDS` of the missing `ontohelper.py`
("a fixed set of annotation relations": plain, broad, exact and narrow
synonym, plus the alternative term), the `?synonym ?broad_synonym
?exact_synonym ?narrow_synonym ?alternative_term` inputs named by the
docstring of `do_entity_synonyms` (ontofetch.py line 340). -/
def SYNONYM_FIELDS : List String :=
  ["synonym", "broad_synonym", "exact_synonym", "narrow_synonym", "alternative_term"]

/-- The run environment: the ontology metadata prefix tag (`'prefix' in
struct['metadata']`, ontofetch.py line 279), the id normalizer
`get_entity_id` of `ontohelper.py`, and the backing graph's answers to the
`entity_text` and `entity_synonyms` queries for a given id.  All are
external collaborators of the merge pipeline. -/
structure Env where
  ontologyTag : Option Value
  get_entity_id : Value → Value
  textQuery : String → List TextRow
  synQuery : String → List SynRow

/-- The pipeline state threaded through a run: the `specifications` table
plus, for each of the two enrichment queries, the ordered list of ids the
query has been issued for (one entry per `graph.query` call in
`do_entity_text` / `do_entity_synonyms`). -/
structure RunState where
  specs : Table
  textQueries : List String
  synQueries : List String

/-- Modelled from the spec: `set_entity_default` of the missing
`ontohelper.py` — "upsert the record (create on first touch)" whose
stub-pass use "never overwrites a fuller existing record": the record is
inserted only when the id is not already a key of the table. -/
def set_entity_default (specs : Table) (id : String) (d : Record) : Table :=
  if dictContains specs id then specs else dictSet specs id d

/-- Modelled from the spec: `get_parent_id` of the missing `ontohelper.py`
— reads the row's `parent_id` so it can be "record[ed] in a pending
parent-reference set for later backfill"; a missing or empty binding is no
reference (`if parent_id:` in ontofetch.py line 244 skips it). -/
def get_parent_id (myDict : Record) : Option String :=
  match dictGet myDict "parent_id" with
  | some (Value.vStr s) => if s = "" then none else some s
  | _ => none

/-- Row mutation at the head of `do_entity` (ontofetch.py lines 273-283):
stringify and write back the id, stamp the metadata prefix as `ontology`,
and resolve `replaced_by` through `get_entity_id` when present. -/
def mutate_row (env : Env) (myDict : Record) (id : String) : Record :=
  let d1 := dictSet myDict "id" (Value.vStr id)
  let d2 :=
    match env.ontologyTag with
    | some v => dictSet d1 "ontology" v
    | none => d1
  match dictGet d2 "replaced_by" with
  | some rv => dictSet d2 "replaced_by" (env.get_entity_id rv)
  | none => d2

/-- The multi-parent merge of `do_entity` (ontofetch.py lines 287-294), run
when the id is already in `specifications`: reads `myDict['parent_id']` and
`existing['parent_id']` (each a `KeyError` when missing), and when both are
truthy and differ appends the new parent to `existing['other_parents']`,
creating that list when absent. -/
def merge_parents (existing d3 : Record) : Except String Record :=
  match dictGet d3 "parent_id" with
  | none => Except.error "KeyError: parent_id"
  | some pv =>
    match dictGet existing "parent_id" with
    | none => Except.error "KeyError: parent_id"
    | some ev =>
      if truthy pv && truthy ev && !(Value.beq pv ev) then
        let ex1 :=
          if dictContains existing "other_parents" then existing
          else dictSet existing "other_parents" (Value.vList [])
        match dictGet ex1 "other_parents" with
        | some (Value.vList l) =>
          Except.ok (dictSet ex1 "other_parents" (Value.vList (l ++ [pv])))
        | _ => Except.error "TypeError: other_parents"
      else Except.ok existing

/-- The structural half of `do_entity` (ontofetch.py lines 273-296): row
mutation, the multi-parent merge for an already-present id, then
`set_entity_default`.  Returns the computed id together with the updated
table; the in-place mutation of the existing record is modelled by writing
the merged record back under its key. -/
def do_entity_merge (env : Env) (myDict : Record) (specs : Table) :
    Except String (String × Table) :=
  match dictGet myDict "id" with
  | none => Except.error "KeyError: id"
  | some idv =>
    let id := pyStr idv
    let d3 := mutate_row env myDict id
    match dictGet specs id with
    | some existing =>
      (match merge_parents existing d3 with
       | Except.error e => Except.error e
       | Except.ok ex2 =>
         Except.ok (id, set_entity_default (dictSet specs id ex2) id d3))
    | none => Except.ok (id, set_entity_default specs id d3)

/-- Processing of one `entity_text` result row (ontofetch.py lines
314-317): `specifications[id].update(row.asdict())` — a `KeyError` when
the id is not a key of the table. -/
def text_row_step (id : String) (specs : Table) (row : TextRow) : Except String Table :=
  match dictGet specs id with
  | none => Except.error "KeyError: specifications"
  | some spec => Except.ok (dictSet specs id (dictUpdate spec (TextRow.asdict row)))

/-- The text enrichment `do_entity_text` (ontofetch.py lines 302-317): one
`entity_text` query for the id (logged in `textQueries`), then each result
row is `update`d into `specifications[id]` — a `KeyError` when the id is
not a key and at least one row came back. -/
def do_entity_text (env : Env) (id : String) (st : RunState) : Except String RunState :=
  match (env.textQuery id).foldlM (text_row_step id) st.specs with
  | Except.error e => Except.error e
  | Except.ok specs2 =>
    Except.ok { specs := specs2, textQueries := st.textQueries ++ [id],
                synQueries := st.synQueries }

/-- Processing of one synonym category field of one row (ontofetch.py
lines 356-369): a truthy raw value is cleaned into phrases which are
appended to `spec[field.replace('_',':',1)]`, the list being created when
the key is absent. -/
def syn_field_step (spec : Record) (row : SynRow) (field : String) : Except String Record :=
  match SynRow.get row field with
  | none => Except.ok spec
  | some raw =>
    if raw = "" then Except.ok spec
    else
      let phrases := clean_phrases raw
      if phrases.isEmpty then Except.ok spec
      else
        let pf := colonField field
        if dictContains spec pf then
          match dictGet spec pf with
          | some (Value.vList l) =>
            Except.ok (dictSet spec pf (Value.vList (l ++ phrases.map Value.vStr)))
          | _ => Except.error "TypeError: synonym field"
        else Except.ok (dictSet spec pf (Value.vList (phrases.map Value.vStr)))

/-- Processing of one synonym query row (ontofetch.py lines 353-369):
every recognized category field is folded into the record. -/
def syn_row_step (spec : Record) (row : SynRow) : Except String Record :=
  SYNONYM_FIELDS.foldlM (fun sp f => syn_field_step sp row f) spec

/-- The synonym enrichment `do_entity_synonyms` (ontofetch.py lines
322-369): one `entity_synonyms` query for the id (logged in `synQueries`),
then `spec = specifications[id]` — a `KeyError` when the id is not a key —
and every category of every row is folded into that record in place. -/
def do_entity_synonyms (env : Env) (id : String) (st : RunState) : Except String RunState :=
  match dictGet st.specs id with
  | none => Except.error "KeyError: specifications"
  | some spec0 =>
    match (env.synQuery id).foldlM syn_row_step spec0 with
    | Except.error e => Except.error e
    | Except.ok spec2 =>
      Except.ok { specs := dictSet st.specs id spec2, textQueries := st.textQueries,
                  synQueries := st.synQueries ++ [id] }

/-- The per-row entry point `do_entity` (ontofetch.py lines 261-299):
structural merge, then the text and synonym enrichments for the row's id. -/
def do_entity (env : Env) (myDict : Record) (st : RunState) : Except String RunState :=
  match do_entity_merge env myDict st.specs with
  | Except.error e => Except.error e
  | Except.ok (id, specs1) =>
    match do_entity_text env id
        { specs := specs1, textQueries := st.textQueries, synQueries := st.synQueries } with
    | Except.error e => Except.error e
    | Except.ok st2 => do_entity_synonyms env id st2

/-- First pass of `do_entities` (ontofetch.py lines 240-246): process each
row with `do_entity` and collect each row's parent id into the pending
`parents` list, skipping parents already collected. -/
def first_pass (env : Env) :
    List Record → RunState → List String → Except String (RunState × List String)
  | [], st, ps => Except.ok (st, ps)
  | myDict :: rest, st, ps =>
    match do_entity env myDict st with
    | Except.error e => Except.error e
    | Except.ok st1 =>
      let ps1 :=
        match get_parent_id myDict with
        | some p => if ps.contains p then ps else ps ++ [p]
        | none => ps
      first_pass env rest st1 ps1

/-- Second pass of `do_entities` (ontofetch.py lines 253-258): for every
pending parent id not already in `specifications`, insert the minimal stub
record `{'id': parent_id, 'datatype': 'entity'}` via `set_entity_default`. -/
def backfill_parents : List String → Table → Table
  | [], specs => specs
  | p :: rest, specs =>
    backfill_parents rest
      (if dictContains specs p then specs
       else set_entity_default specs p [("id", Value.vStr p), ("datatype", Value.vStr "entity")])

/-- The table-level entry point `do_entities` (ontofetch.py lines 217-258):
first pass over the rows, then the parent backfill pass. -/
def do_entities (env : Env) (table : List Record) (st : RunState) : Except String RunState :=
  match first_pass env table st [] with
  | Except.error e => Except.error e
  | Except.ok (st1, parents) =>
    Except.ok { specs := backfill_parents parents st1.specs,
                textQueries := st1.textQueries, synQueries := st1.synQueries }

mutual

/-- Reflexivity of `Value.beq`. -/
def Value.beqRefl : (a : Value) → Value.beq a a = true
  | .vStr s => by simp [Value.beq]
  | .vNone => rfl
  | .vList l => Value.beqListRefl l

/-- Reflexivity of `Value.beqList`. -/
def Value.beqListRefl : (l : List Value) → Value.beqList l l = true
  | [] => rfl
  | a :: as => by simp [Value.beqList, Value.beqRefl a, Value.beqListRefl as]

end

mutual

/-- Soundness of `Value.beq`. -/
def Value.eqOfBeq : {a b : Value} → Value.beq a b = true → a = b
  | .vStr _, .vStr _, h => by
    simp only [Value.beq] at h
    exact congrArg Value.vStr (by simpa using h)
  | .vNone, .vNone, _ => rfl
  | .vList _, .vList _, h => congrArg Value.vList (Value.eqListOfBeq h)
  | .vStr _, .vNone, h => by simp [Value.beq] at h
  | .vStr _, .vList _, h => by simp [Value.beq] at h
  | .vNone, .vStr _, h => by simp [Value.beq] at h
  | .vNone, .vList _, h => by simp [Value.beq] at h
  | .vList _, .vStr _, h => by simp [Value.beq] at h
  | .vList _, .vNone, h => by simp [Value.beq] at h

/-- Soundness of `Value.beqList`. -/
def Value.eqListOfBeq : {as bs : List Value} → Value.beqList as bs = true → as = bs
  | [], [], _ => rfl
  | _ :: _, _ :: _, h => by
    simp only [Value.beqList, Bool.and_eq_true] at h
    exact congrArg₂ List.cons (Value.eqOfBeq h.1) (Value.eqListOfBeq h.2)
  | [], _ :: _, h => by simp [Value.beqList] at h
  | _ :: _, [], h => by simp [Value.beqList] at h

end

instance : BEq Value := ⟨Value.beq⟩

instance : DecidableEq Value := fun a b =>
  if h : Value.beq a b = true then isTrue (Value.eqOfBeq h)
  else isFalse (fun he => h (he ▸ Value.beqRefl a))

/-- The id a row is merged under: `str(myDict['id'])` (ontofetch.py
line 273); only used on rows that carry an id. -/
def rowId (myDict : Record) : String :=
  pyStr ((dictGet myDict "id").getD Value.vNone)

/-- First row of the table whose (stringified) subject id is `i`. -/
def find_first_row (rows : List Record) (i : String) : Option Record :=
  rows.find? (fun row => ((dictGet row "id").map pyStr) == some i)

/-- Append-only relation between two records: every list-valued field of
the first reappears in the second with the original phrases first, in
order, and only new material after them. -/
def appends_only (r r' : Record) : Prop :=
  ∀ k l, dictGet r k = some (Value.vList l) →
    ∃ t, dictGet r' k = some (Value.vList (l ++ t))

/-- Field `k` of the record of id `i` in the table of a successful run
(`none` on error, missing id or missing field). -/
def getSpecField (r : Except String RunState) (i k : String) : Option Value :=
  match r with
  | Except.ok st =>
    (match dictGet st.specs i with
     | some g => dictGet g k
     | none => none)
  | Except.error _ => none

/-- Record keys written by the text enrichment (the bound variables of an
`entity_text` row). -/
abbrev text_keys : List String := ["label", "definition", "ui_label", "ui_definition"]

/-- Record keys written by the synonym enrichment (the
`field.replace('_',':',1)` images of `SYNONYM_FIELDS`). -/
abbrev syn_keys : List String :=
  ["synonym", "broad:synonym", "exact:synonym", "narrow:synonym", "alternative:term"]

/-- Keys no enrichment pass writes. -/
abbrev enrich_untouched (k : String) : Prop := ¬ k ∈ text_keys ∧ ¬ k ∈ syn_keys

/-- Keys the structural merge never writes on a record it updates
(`other_parents` is its only in-place update; `id`, `ontology` and
`replaced_by` are the row-mutation writes). -/
abbrev merge_untouched (k : String) : Prop :=
  k ≠ "other_parents" ∧ k ≠ "id" ∧ k ≠ "ontology" ∧ k ≠ "replaced_by"

/-- Keys no pass of the pipeline ever writes on an existing record —
notably `parent_id` and `datatype`. -/
abbrev untouched_key (k : String) : Prop := enrich_untouched k ∧ merge_untouched k

/-- Environment with no metadata prefix, identity id-normalizer, and empty
text and synonym query results. -/
def envN : Env := ⟨none, fun v => v, fun _ => [], fun _ => []⟩

/-- Empty initial run state. -/
def st0 : RunState := ⟨[], [], []⟩

/-- A hierarchy query row `(id, parent_id, label)` with the optional
`deprecated` and `replaced_by` variables unbound. -/
def hrow (i p lab : String) : Record :=
  [("id", Value.vStr i), ("parent_id", Value.vStr p), ("label", Value.vStr lab)]

/-- Hierarchy rows of the end-to-end scenario of C1. -/
def c1rows : List Record :=
  [hrow "T1" "R" "Term One", hrow "T2" "R" "Term Two", hrow "T1" "R2" "Term One"]

/-- Hierarchy rows of the multi-parent example of C2. -/
def c2rows : List Record :=
  [hrow "A" "P1" "a", hrow "A" "P1" "a", hrow "A" "P2" "a"]

/-- Hierarchy rows with a repeated additional parent, refuting
duplicate-freeness of `other_parents`. -/
def c2dupRows : List Record :=
  [hrow "A" "P1" "a", hrow "A" "P2" "a", hrow "A" "P2" "a"]

/-- Hierarchy rows with the same subject under two parents, for the query
count scenario of C3. -/
def c3rows : List Record :=
  [hrow "T1" "R" "x", hrow "T1" "R2" "x"]

/-- Run state whose table holds the single id `X`. -/
def stX : RunState := ⟨[("X", [("id", Value.vStr "X")])], [], []⟩

/-- Environment whose synonym query answers `exact_synonym = "foo;bar"`. -/
def env7a : Env := ⟨none, fun v => v, fun _ => [], fun _ => [⟨none, none, some "foo;bar", none, none⟩]⟩

/-- Environment whose synonym query answers `exact_synonym = "baz"`. -/
def env7b : Env := ⟨none, fun v => v, fun _ => [], fun _ => [⟨none, none, some "baz", none, none⟩]⟩

/-- Environment whose synonym query exercises the cleanup chain: an
embedded backslash-n escape, stray double quotes, an interior space after
the delimiter, and surrounding whitespace. -/
def env8 : Env :=
  ⟨none, fun v => v, fun _ => [],
   fun _ => [⟨some "foo\\nbar", some "\"foo\";bar", some "foo; bar", some "  foo;bar  ", none⟩]⟩

/-- Run state as left by a first root's pass that stubbed id `P`: `P` holds
only `id` and `datatype`, no `parent_id`. -/
def stP : RunState :=
  ⟨[("P", [("id", Value.vStr "P"), ("datatype", Value.vStr "entity")])], [], []⟩

/-- Invariant of the table: the primary `parent_id` of a record never also
occurs in its `other_parents` list. -/
def no_primary_dup (t : Table) : Prop :=
  ∀ j g p l, dictGet t j = some g → dictGet g "parent_id" = some p →
    dictGet g "other_parents" = some (Value.vList l) → ¬ p ∈ l

/-- Hierarchy rows where id `P` is first referenced as a parent and later
appears as a full structural row of its own. -/
def c6rows : List Record := [hrow "C" "P" "c", hrow "P" "Q" "p"]

/-- Environment whose text query returns one row with no bound variable. -/
def envT : Env := ⟨none, fun v => v, fun _ => [⟨none, none, none, none⟩], fun _ => []⟩

/-- The run state produced by `do_entities envN c1rows st0`. -/
def stC1lit : RunState :=
  ⟨[("T1", [("id", Value.vStr "T1"), ("parent_id", Value.vStr "R"), ("label", Value.vStr "Term One"), ("other_parents", Value.vList [Value.vStr "R2"])]),
    ("T2", [("id", Value.vStr "T2"), ("parent_id", Value.vStr "R"), ("label", Value.vStr "Term Two")]),
    ("R", [("id", Value.vStr "R"), ("datatype", Value.vStr "entity")]),
    ("R2", [("id", Value.vStr "R2"), ("datatype", Value.vStr "entity")])],
   ["T1", "T2", "T1"], ["T1", "T2", "T1"]⟩

/-- The run state produced by `do_entities envN c3rows st0`. -/
def stC3lit : RunState :=
  ⟨[("T1", [("id", Value.vStr "T1"), ("parent_id", Value.vStr "R"), ("label", Value.vStr "x"), ("other_parents", Value.vList [Value.vStr "R2"])]),
    ("R", [("id", Value.vStr "R"), ("datatype", Value.vStr "entity")]),
    ("R2", [("id", Value.vStr "R2"), ("datatype", Value.vStr "entity")])],
   ["T1", "T1"], ["T1", "T1"]⟩

/-- The run state produced by `do_entities envN c6rows st0`. -/
def stC6lit : RunState :=
  ⟨[("C", [("id", Value.vStr "C"), ("parent_id", Value.vStr "P"), ("label", Value.vStr "c")]),
    ("P", [("id", Value.vStr "P"), ("parent_id", Value.vStr "Q"), ("label", Value.vStr "p")]),
    ("Q", [("id", Value.vStr "Q"), ("datatype", Value.vStr "entity")])],
   ["C", "P"], ["C", "P"]⟩

/-- The run state produced by `do_entity_synonyms env7a "X" stX`. -/
def st7lit : RunState :=
  ⟨[("X", [("id", Value.vStr "X"), ("exact:synonym", Value.vList [Value.vStr "foo", Value.vStr "bar"])])],
   [], ["X"]⟩

/-- The run state produced by `do_entities envN c2dupRows st0`. -/
def stC2dlit : RunState :=
  ⟨[("A", [("id", Value.vStr "A"), ("parent_id", Value.vStr "P1"), ("label", Value.vStr "a"), ("other_parents", Value.vList [Value.vStr "P2", Value.vStr "P2"])]),
    ("P1", [("id", Value.vStr "P1"), ("datatype", Value.vStr "entity")]),
    ("P2", [("id", Value.vStr "P2"), ("datatype", Value.vStr "entity")])],
   ["A", "A", "A"], ["A", "A", "A"]⟩

theorem dictGet_set_self {α : Type} (d : List (String × α)) (k : String) (v : α) :
    dictGet (dictSet d k v) k = some v := by
  induction d with
  | nil => simp [dictSet, dictGet]
  | cons p rest ih =>
    by_cases h : p.1 = k
    · simp [dictSet, h, dictGet]
    · simp [dictSet, h, dictGet, ih]

theorem dictGet_set_ne {α : Type} (d : List (String × α)) (k k' : String) (v : α)
    (h : k' ≠ k) : dictGet (dictSet d k v) k' = dictGet d k' := by
  induction d with
  | nil => simp [dictSet, dictGet, Ne.symm h]
  | cons p rest ih =>
    by_cases hp : p.1 = k
    · simp [dictSet, hp, dictGet, Ne.symm h]
    · simp [dictSet, hp, dictGet, ih]

theorem dictContains_set_self {α : Type} (d : List (String × α)) (k : String) (v : α) :
    dictContains (dictSet d k v) k = true := by
  simp [dictContains, dictGet_set_self]

theorem dictContains_false_get {α : Type} (d : List (String × α)) (k : String)
    (h : dictContains d k = false) : dictGet d k = none := by
  cases hg : dictGet d k with
  | none => rfl
  | some v => rw [dictContains, hg] at h; simp at h

theorem dictContains_true_get {α : Type} (d : List (String × α)) (k : String)
    (h : dictContains d k = true) : ∃ v, dictGet d k = some v := by
  simpa [dictContains, Option.isSome_iff_exists] using h

theorem dictGet_update_not_mem {α : Type} (e d : List (String × α)) (k : String)
    (h : ∀ p ∈ e, p.1 ≠ k) : dictGet (dictUpdate d e) k = dictGet d k := by
  induction e generalizing d with
  | nil => rfl
  | cons q e' ih =>
    have hq : dictUpdate d (q :: e') = dictUpdate (dictSet d q.1 q.2) e' := rfl
    rw [hq, ih _ (fun p hp => h p (List.mem_cons_of_mem q hp)),
      dictGet_set_ne _ _ _ _ (Ne.symm (h q (List.mem_cons_self q e')))]

theorem mutate_row_get (env : Env) (myDict : Record) (i k : String)
    (h1 : k ≠ "id") (h2 : k ≠ "ontology") (h3 : k ≠ "replaced_by") :
    dictGet (mutate_row env myDict i) k = dictGet myDict k := by
  simp only [mutate_row]
  cases henv : env.ontologyTag with
  | none =>
    split
    · rw [dictGet_set_ne _ _ _ _ h3, dictGet_set_ne _ _ _ _ h1]
    · rw [dictGet_set_ne _ _ _ _ h1]
  | some v =>
    split
    · rw [dictGet_set_ne _ _ _ _ h3, dictGet_set_ne _ _ _ _ h2, dictGet_set_ne _ _ _ _ h1]
    · rw [dictGet_set_ne _ _ _ _ h2, dictGet_set_ne _ _ _ _ h1]

theorem merge_parents_ok (existing d3 ex2 : Record)
    (h : merge_parents existing d3 = Except.ok ex2) :
    (∀ k, k ≠ "other_parents" → dictGet ex2 k = dictGet existing k) ∧
    ((ex2 = existing ∧
        ∀ pv ev, dictGet d3 "parent_id" = some pv →
          dictGet existing "parent_id" = some ev →
          (truthy pv && truthy ev && !(Value.beq pv ev)) = false) ∨
      ∃ pv ev l, dictGet d3 "parent_id" = some pv ∧
        dictGet existing "parent_id" = some ev ∧
        truthy pv = true ∧ truthy ev = true ∧ Value.beq pv ev = false ∧
        ((dictGet existing "other_parents" = none ∧ l = []) ∨
          dictGet existing "other_parents" = some (Value.vList l)) ∧
        dictGet ex2 "other_parents" = some (Value.vList (l ++ [pv]))) := by
  unfold merge_parents at h
  cases hpv : dictGet d3 "parent_id" with
  | none => simp only [hpv] at h; exact absurd h (by simp)
  | some pv =>
    simp only [hpv] at h
    cases hev : dictGet existing "parent_id" with
    | none => simp only [hev] at h; exact absurd h (by simp)
    | some ev =>
      simp only [hev] at h
      by_cases hcond : (truthy pv && truthy ev && !(Value.beq pv ev)) = true
      · rcases Bool.and_eq_true_iff.mp hcond with ⟨hc1, hc3⟩
        rcases Bool.and_eq_true_iff.mp hc1 with ⟨htp, hte⟩
        have hbeq : Value.beq pv ev = false := by
          cases hb : Value.beq pv ev
          · rfl
          · rw [hb] at hc3; simp at hc3
        rw [if_pos hcond] at h
        by_cases hop : dictContains existing "other_parents" = true
        · rw [if_pos hop] at h
          rcases dictContains_true_get _ _ hop with ⟨v0, hv0⟩
          simp only [hv0] at h
          cases v0 with
          | vStr s => exact absurd h (by simp)
          | vNone => exact absurd h (by simp)
          | vList l =>
            injection h with h2
            subst h2
            exact ⟨fun k hk => dictGet_set_ne _ _ _ _ hk,
              Or.inr ⟨pv, ev, l, rfl, rfl, htp, hte, hbeq, Or.inr hv0,
                dictGet_set_self _ _ _⟩⟩
        · rw [if_neg hop] at h
          have hopf : dictContains existing "other_parents" = false := by
            simpa using hop
          have hv0 : dictGet existing "other_parents" = none :=
            dictContains_false_get _ _ hopf
          simp only [dictGet_set_self] at h
          injection h with h2
          subst h2
          refine ⟨fun k hk => ?_,
            Or.inr ⟨pv, ev, [], rfl, rfl, htp, hte, hbeq, Or.inl ⟨hv0, rfl⟩,
              dictGet_set_self _ _ _⟩⟩
          rw [dictGet_set_ne _ _ _ _ hk, dictGet_set_ne _ _ _ _ hk]
      · rw [if_neg hcond] at h
        injection h with h2
        subst h2
        refine ⟨fun k _ => rfl, Or.inl ⟨rfl, fun pv2 ev2 hpv2 hev2 => ?_⟩⟩
        have hp2 : pv2 = pv := (Option.some_inj.mp hpv2).symm
        have he2 : ev2 = ev := (Option.some_inj.mp hev2).symm
        subst hp2
        subst he2
        exact Bool.not_eq_true _ ▸ Bool.eq_false_iff.mpr hcond

theorem do_entity_merge_ok (env : Env) (myDict : Record) (specs : Table)
    (i : String) (specs1 : Table)
    (h : do_entity_merge env myDict specs = Except.ok (i, specs1)) :
    ∃ v, dictGet myDict "id" = some v ∧ i = pyStr v ∧
      (∀ j, j ≠ i → dictGet specs1 j = dictGet specs j) ∧
      dictContains specs1 i = true ∧
      ((dictGet specs i = none ∧
          dictGet specs1 i = some (mutate_row env myDict i)) ∨
        (∃ g g2, dictGet specs i = some g ∧
          merge_parents g (mutate_row env myDict i) = Except.ok g2 ∧
          dictGet specs1 i = some g2)) := by
  unfold do_entity_merge at h
  cases hid : dictGet myDict "id" with
  | none => simp only [hid] at h; exact absurd h (by simp)
  | some idv =>
    simp only [hid] at h
    cases hex : dictGet specs (pyStr idv) with
    | none =>
      simp only [hex] at h
      injection h with h2
      injection h2 with hi hs
      subst hi
      have hsd : set_entity_default specs (pyStr idv) (mutate_row env myDict (pyStr idv))
          = dictSet specs (pyStr idv) (mutate_row env myDict (pyStr idv)) := by
        simp [set_entity_default, dictContains, hex]
      rw [hsd] at hs
      subst hs
      exact ⟨idv, rfl, rfl, fun j hj => dictGet_set_ne _ _ _ _ hj,
        dictContains_set_self _ _ _,
        Or.inl ⟨hex, dictGet_set_self _ _ _⟩⟩
    | some g =>
      simp only [hex] at h
      cases hmp : merge_parents g (mutate_row env myDict (pyStr idv)) with
      | error e => rw [hmp] at h; exact absurd h (by simp)
      | ok g2 =>
        rw [hmp] at h
        injection h with h2
        injection h2 with hi hs
        subst hi
        have hsd : set_entity_default (dictSet specs (pyStr idv) g2) (pyStr idv)
            (mutate_row env myDict (pyStr idv)) = dictSet specs (pyStr idv) g2 := by
          simp [set_entity_default, dictContains_set_self]
        rw [hsd] at hs
        subst hs
        exact ⟨idv, rfl, rfl, fun j hj => dictGet_set_ne _ _ _ _ hj,
          dictContains_set_self _ _ _,
          Or.inr ⟨g, g2, hex, hmp, dictGet_set_self _ _ _⟩⟩

theorem optEntry_mem (k : String) (o : Option String) (p : String × Value)
    (h : p ∈ optEntry k o) : p.1 = k := by
  cases o with
  | none => simp [optEntry] at h
  | some s => simp [optEntry] at h; subst h; rfl

theorem asdict_key_mem (r : TextRow) (p : String × Value)
    (h : p ∈ TextRow.asdict r) : p.1 ∈ text_keys := by
  unfold TextRow.asdict at h
  rcases List.mem_append.mp h with h1 | h4
  · rcases List.mem_append.mp h1 with h2 | h3
    · rcases List.mem_append.mp h2 with h5 | h6
      · rw [optEntry_mem _ _ _ h5]; simp [text_keys]
      · rw [optEntry_mem _ _ _ h6]; simp [text_keys]
    · rw [optEntry_mem _ _ _ h3]; simp [text_keys]
  · rw [optEntry_mem _ _ _ h4]; simp [text_keys]

theorem except_error_bind {A B : Type} (e : String) (f : A → Except String B) :
    (Except.error e >>= f) = Except.error e := rfl

theorem except_ok_bind {A B : Type} (a : A) (f : A → Except String B) :
    (Except.ok a >>= f : Except String B) = f a := rfl

theorem text_fold_ok (i : String) (rows : List TextRow) :
    ∀ specs specs2, rows.foldlM (text_row_step i) specs = Except.ok specs2 →
      (∀ j, j ≠ i → dictGet specs2 j = dictGet specs j) ∧
      (dictGet specs i = none → dictGet specs2 i = none) ∧
      (∀ g, dictGet specs i = some g → ∃ g2, dictGet specs2 i = some g2 ∧
        ∀ k, ¬ k ∈ text_keys → dictGet g2 k = dictGet g k) := by
  induction rows with
  | nil =>
    intro specs specs2 h
    simp only [List.foldlM_nil] at h
    injection h with h2
    subst h2
    exact ⟨fun j _ => rfl, fun hn => hn, fun g hg => ⟨g, hg, fun k _ => rfl⟩⟩
  | cons row rest ih =>
    intro specs specs2 h
    simp only [List.foldlM_cons] at h
    cases hg : dictGet specs i with
    | none => simp [text_row_step, hg, except_error_bind] at h
    | some g =>
      simp only [text_row_step, hg, except_ok_bind] at h
      have hbind :
          rest.foldlM (text_row_step i)
            (dictSet specs i (dictUpdate g (TextRow.asdict row))) = Except.ok specs2 := h
      rcases ih _ _ hbind with ⟨ih1, ih2, ih3⟩
      refine ⟨?_, ?_, ?_⟩
      · intro j hj
        rw [ih1 j hj, dictGet_set_ne _ _ _ _ hj]
      · intro hn
        simp [hg] at hn
      · intro g0 hg0
        injection hg0 with hg0e
        subst hg0e
        rcases ih3 _ (dictGet_set_self _ _ _) with ⟨g2, hgg2, hpres⟩
        refine ⟨g2, hgg2, fun k hk => ?_⟩
        rw [hpres k hk, dictGet_update_not_mem _ _ _
          (fun p hp hpk => hk (by rw [← hpk]; exact asdict_key_mem row p hp))]

theorem do_entity_text_ok (env : Env) (i : String) (st st' : RunState)
    (h : do_entity_text env i st = Except.ok st') :
    st'.textQueries = st.textQueries ++ [i] ∧ st'.synQueries = st.synQueries ∧
    (∀ j, j ≠ i → dictGet st'.specs j = dictGet st.specs j) ∧
    (dictGet st.specs i = none → dictGet st'.specs i = none) ∧
    (∀ g, dictGet st.specs i = some g → ∃ g2, dictGet st'.specs i = some g2 ∧
      ∀ k, ¬ k ∈ text_keys → dictGet g2 k = dictGet g k) := by
  unfold do_entity_text at h
  cases hf : (env.textQuery i).foldlM (text_row_step i) st.specs with
  | error e => rw [hf] at h; exact absurd h (by simp)
  | ok specs2 =>
    rw [hf] at h
    injection h with h2
    subst h2
    rcases text_fold_ok i (env.textQuery i) _ _ hf with ⟨h1, h2, h3⟩
    exact ⟨rfl, rfl, h1, h2, h3⟩

theorem appends_only_refl (r : Record) : appends_only r r :=
  fun k l h => ⟨[], by simp [h]⟩

theorem appends_only_trans {a b c : Record}
    (h1 : appends_only a b) (h2 : appends_only b c) : appends_only a c := by
  intro k l hl
  rcases h1 k l hl with ⟨t1, hb⟩
  rcases h2 k (l ++ t1) hb with ⟨t2, hc⟩
  exact ⟨t1 ++ t2, by rw [hc, List.append_assoc]⟩

theorem syn_field_step_ok (spec : Record) (row : SynRow) (f : String)
    (spec' : Record) (h : syn_field_step spec row f = Except.ok spec') :
    (∀ k, k ≠ colonField f → dictGet spec' k = dictGet spec k) ∧
    appends_only spec spec' := by
  unfold syn_field_step at h
  cases hr : SynRow.get row f with
  | none =>
    simp only [hr] at h
    injection h with h2
    subst h2
    exact ⟨fun k _ => rfl, appends_only_refl _⟩
  | some raw =>
    simp only [hr] at h
    by_cases hraw : raw = ""
    · rw [if_pos hraw] at h
      injection h with h2
      subst h2
      exact ⟨fun k _ => rfl, appends_only_refl _⟩
    · rw [if_neg hraw] at h
      by_cases hph : (clean_phrases raw).isEmpty = true
      · rw [if_pos hph] at h
        injection h with h2
        subst h2
        exact ⟨fun k _ => rfl, appends_only_refl _⟩
      · rw [if_neg hph] at h
        by_cases hcf : dictContains spec (colonField f) = true
        · rw [if_pos hcf] at h
          rcases dictContains_true_get _ _ hcf with ⟨v0, hv0⟩
          simp only [hv0] at h
          cases v0 with
          | vStr s => exact absurd h (by simp)
          | vNone => exact absurd h (by simp)
          | vList l =>
            injection h with h2
            subst h2
            refine ⟨fun k hk => dictGet_set_ne _ _ _ _ hk, fun k lk hlk => ?_⟩
            by_cases hkf : k = colonField f
            · subst hkf
              rw [hv0] at hlk
              injection hlk with hlke
              injection hlke with hlkl
              subst hlkl
              exact ⟨(clean_phrases raw).map Value.vStr, dictGet_set_self _ _ _⟩
            · exact ⟨[], by rw [List.append_nil, dictGet_set_ne _ _ _ _ hkf]; exact hlk⟩
        · rw [if_neg hcf] at h
          have hnone : dictGet spec (colonField f) = none :=
            dictContains_false_get _ _ (by simpa using hcf)
          injection h with h2
          subst h2
          refine ⟨fun k hk => dictGet_set_ne _ _ _ _ hk, fun k lk hlk => ?_⟩
          by_cases hkf : k = colonField f
          · subst hkf
            rw [hnone] at hlk
            exact absurd hlk (by simp)
          · exact ⟨[], by rw [List.append_nil, dictGet_set_ne _ _ _ _ hkf]; exact hlk⟩

theorem syn_fields_fold_ok (row : SynRow) (fs : List String) :
    ∀ spec spec', fs.foldlM (fun sp f => syn_field_step sp row f) spec = Except.ok spec' →
      (∀ k, (∀ f, f ∈ fs → k ≠ colonField f) → dictGet spec' k = dictGet spec k) ∧
      appends_only spec spec' := by
  induction fs with
  | nil =>
    intro spec spec' h
    simp only [List.foldlM_nil] at h
    injection h with h2
    subst h2
    exact ⟨fun k _ => rfl, appends_only_refl _⟩
  | cons f fs' ih =>
    intro spec spec' h
    simp only [List.foldlM_cons] at h
    cases hs : syn_field_step spec row f with
    | error e => rw [hs] at h; simp [except_error_bind] at h
    | ok sp1 =>
      rw [hs, except_ok_bind] at h
      rcases syn_field_step_ok _ _ _ _ hs with ⟨h1, h2⟩
      rcases ih _ _ h with ⟨ih1, ih2⟩
      refine ⟨fun k hk => ?_, appends_only_trans h2 ih2⟩
      rw [ih1 k (fun f2 hf2 => hk f2 (List.mem_cons_of_mem f hf2)),
        h1 k (hk f (List.mem_cons_self f fs'))]

theorem syn_keys_colonField (f : String) (hf : f ∈ SYNONYM_FIELDS) :
    colonField f ∈ syn_keys := by
  fin_cases hf <;> decide

theorem syn_rows_fold_ok (rows : List SynRow) :
    ∀ spec spec', rows.foldlM syn_row_step spec = Except.ok spec' →
      (∀ k, ¬ k ∈ syn_keys → dictGet spec' k = dictGet spec k) ∧
      appends_only spec spec' := by
  induction rows with
  | nil =>
    intro spec spec' h
    simp only [List.foldlM_nil] at h
    injection h with h2
    subst h2
    exact ⟨fun k _ => rfl, appends_only_refl _⟩
  | cons row rest ih =>
    intro spec spec' h
    simp only [List.foldlM_cons] at h
    cases hs : syn_row_step spec row with
    | error e => rw [hs] at h; simp [except_error_bind] at h
    | ok sp1 =>
      rw [hs, except_ok_bind] at h
      rcases syn_fields_fold_ok row SYNONYM_FIELDS _ _ hs with ⟨h1, h2⟩
      rcases ih _ _ h with ⟨ih1, ih2⟩
      refine ⟨fun k hk => ?_, appends_only_trans h2 ih2⟩
      rw [ih1 k hk, h1 k (fun f2 hf2 he => hk (he ▸ syn_keys_colonField f2 hf2))]

theorem do_entity_synonyms_ok (env : Env) (i : String) (st st' : RunState)
    (h : do_entity_synonyms env i st = Except.ok st') :
    st'.synQueries = st.synQueries ++ [i] ∧ st'.textQueries = st.textQueries ∧
    (∀ j, j ≠ i → dictGet st'.specs j = dictGet st.specs j) ∧
    (∃ g g2, dictGet st.specs i = some g ∧ dictGet st'.specs i = some g2 ∧
      (∀ k, ¬ k ∈ syn_keys → dictGet g2 k = dictGet g k) ∧ appends_only g g2) := by
  unfold do_entity_synonyms at h
  cases hg : dictGet st.specs i with
  | none => simp only [hg] at h; exact absurd h (by simp)
  | some g0 =>
    simp only [hg] at h
    cases hf : (env.synQuery i).foldlM syn_row_step g0 with
    | error e => rw [hf] at h; exact absurd h (by simp)
    | ok g2 =>
      rw [hf] at h
      injection h with h2
      subst h2
      rcases syn_rows_fold_ok (env.synQuery i) _ _ hf with ⟨h1, h2⟩
      exact ⟨rfl, rfl, fun j hj => dictGet_set_ne _ _ _ _ hj,
        g0, g2, rfl, dictGet_set_self _ _ _, h1, h2⟩

theorem do_entity_synonyms_absent (env : Env) (i : String) (st : RunState)
    (h : dictGet st.specs i = none) :
    do_entity_synonyms env i st = Except.error "KeyError: specifications" := by
  simp [do_entity_synonyms, h]

theorem do_entity_text_absent_rows (env : Env) (i : String) (st : RunState)
    (row : TextRow) (rest : List TextRow) (h : dictGet st.specs i = none)
    (hq : env.textQuery i = row :: rest) :
    do_entity_text env i st = Except.error "KeyError: specifications" := by
  unfold do_entity_text
  rw [hq]
  simp only [List.foldlM_cons, text_row_step, h, except_error_bind]

theorem do_entity_ok (env : Env) (myDict : Record) (st st' : RunState)
    (h : do_entity env myDict st = Except.ok st') :
    ∃ v, dictGet myDict "id" = some v ∧
      st'.textQueries = st.textQueries ++ [pyStr v] ∧
      st'.synQueries = st.synQueries ++ [pyStr v] ∧
      (∀ j, j ≠ pyStr v → dictGet st'.specs j = dictGet st.specs j) ∧
      ((dictGet st.specs (pyStr v) = none ∧
          ∃ g2, dictGet st'.specs (pyStr v) = some g2 ∧
            ∀ k, enrich_untouched k →
              dictGet g2 k = dictGet (mutate_row env myDict (pyStr v)) k) ∨
        (∃ g gm g2, dictGet st.specs (pyStr v) = some g ∧
          merge_parents g (mutate_row env myDict (pyStr v)) = Except.ok gm ∧
          dictGet st'.specs (pyStr v) = some g2 ∧
          ∀ k, enrich_untouched k → dictGet g2 k = dictGet gm k)) := by
  unfold do_entity at h
  cases hm : do_entity_merge env myDict st.specs with
  | error e => simp only [hm] at h; exact absurd h (by simp)
  | ok pr =>
    obtain ⟨i, specs1⟩ := pr
    simp only [hm] at h
    cases ht : do_entity_text env i ⟨specs1, st.textQueries, st.synQueries⟩ with
    | error e => simp only [ht] at h; exact absurd h (by simp)
    | ok st2 =>
      simp only [ht] at h
      rcases do_entity_merge_ok _ _ _ _ _ hm with ⟨v, hid, hiv, hothers, _, hcase⟩
      subst hiv
      rcases do_entity_text_ok _ _ _ _ ht with ⟨htq, hsq, htothers, _, htsome⟩
      rcases do_entity_synonyms_ok _ _ _ _ h with ⟨hsq2, htq2, hsothers, g, g2, hg, hg2, hskeys, _⟩
      refine ⟨v, hid, ?_, ?_, ?_, ?_⟩
      · rw [htq2, htq]
      · rw [hsq2, hsq]
      · intro j hj
        rw [hsothers j hj, htothers j hj]
        exact hothers j hj
      · rcases hcase with ⟨hnone, hm1⟩ | ⟨g0, gm, hg0, hmp, hm1⟩
        · left
          refine ⟨hnone, g2, hg2, fun k hk => ?_⟩
          rcases htsome _ hm1 with ⟨g2t, hg2t, htkeys⟩
          have hgg : g = g2t := by
            rw [hg2t] at hg; injection hg with x; exact x.symm
          subst hgg
          rw [hskeys k hk.2, htkeys k hk.1]
        · right
          refine ⟨g0, gm, g2, hg0, hmp, hg2, fun k hk => ?_⟩
          rcases htsome _ hm1 with ⟨g2t, hg2t, htkeys⟩
          have hgg : g = g2t := by
            rw [hg2t] at hg; injection hg with x; exact x.symm
          subst hgg
          rw [hskeys k hk.2, htkeys k hk.1]

theorem do_entity_preserves (env : Env) (myDict : Record) (st st' : RunState)
    (h : do_entity env myDict st = Except.ok st') (j : String) (g : Record)
    (hg : dictGet st.specs j = some g) :
    ∃ g2, dictGet st'.specs j = some g2 ∧
      ∀ k, untouched_key k → dictGet g2 k = dictGet g k := by
  rcases do_entity_ok _ _ _ _ h with ⟨v, _, _, _, hothers, hcase⟩
  by_cases hj : j = pyStr v
  · subst hj
    rcases hcase with ⟨hnone, _⟩ | ⟨g0, gm, g2, hg0, hmp, hg2, henr⟩
    · rw [hg] at hnone; exact absurd hnone (by simp)
    · have hgg : g0 = g := by rw [hg] at hg0; injection hg0 with x; exact x.symm
      subst hgg
      refine ⟨g2, hg2, fun k hk => ?_⟩
      rw [henr k hk.1, (merge_parents_ok _ _ _ hmp).1 k hk.2.1]
  · exact ⟨g, by rw [hothers j hj]; exact hg, fun k _ => rfl⟩

theorem first_pass_preserves (rows : List Record) :
    ∀ env st ps st' ps', first_pass env rows st ps = Except.ok (st', ps') →
      ∀ j g, dictGet st.specs j = some g →
        ∃ g2, dictGet st'.specs j = some g2 ∧
          ∀ k, untouched_key k → dictGet g2 k = dictGet g k := by
  induction rows with
  | nil =>
    intro env st ps st' ps' h j g hg
    unfold first_pass at h
    injection h with h2
    injection h2 with h3 h4
    subst h3
    exact ⟨g, hg, fun k _ => rfl⟩
  | cons row rest ih =>
    intro env st ps st' ps' h j g hg
    unfold first_pass at h
    cases hde : do_entity env row st with
    | error e => simp only [hde] at h; exact absurd h (by simp)
    | ok st1 =>
      simp only [hde] at h
      rcases do_entity_preserves _ _ _ _ hde j g hg with ⟨g1, hg1, hk1⟩
      rcases ih _ _ _ _ _ h j g1 hg1 with ⟨g2, hg2, hk2⟩
      exact ⟨g2, hg2, fun k hk => by rw [hk2 k hk, hk1 k hk]⟩

theorem first_pass_logs (rows : List Record) :
    ∀ env st ps st' ps', first_pass env rows st ps = Except.ok (st', ps') →
      st'.textQueries = st.textQueries ++ rows.map rowId ∧
      st'.synQueries = st.synQueries ++ rows.map rowId := by
  induction rows with
  | nil =>
    intro env st ps st' ps' h
    unfold first_pass at h
    injection h with h2
    injection h2 with h3 h4
    subst h3
    simp
  | cons row rest ih =>
    intro env st ps st' ps' h
    unfold first_pass at h
    cases hde : do_entity env row st with
    | error e => simp only [hde] at h; exact absurd h (by simp)
    | ok st1 =>
      simp only [hde] at h
      rcases do_entity_ok _ _ _ _ hde with ⟨v, hid, htq, hsq, _, _⟩
      rcases ih _ _ _ _ _ h with ⟨ih1, ih2⟩
      have hrid : rowId row = pyStr v := by simp [rowId, hid]
      constructor
      · rw [ih1, htq, List.map_cons, hrid, List.append_assoc]
        rfl
      · rw [ih2, hsq, List.map_cons, hrid, List.append_assoc]
        rfl

theorem first_pass_parents_sub (rows : List Record) :
    ∀ env st ps st' ps', first_pass env rows st ps = Except.ok (st', ps') →
      ∀ p, p ∈ ps → p ∈ ps' := by
  induction rows with
  | nil =>
    intro env st ps st' ps' h p hp
    unfold first_pass at h
    injection h with h2
    injection h2 with h3 h4
    subst h4
    exact hp
  | cons row rest ih =>
    intro env st ps st' ps' h p hp
    unfold first_pass at h
    cases hde : do_entity env row st with
    | error e => simp only [hde] at h; exact absurd h (by simp)
    | ok st1 =>
      simp only [hde] at h
      refine ih _ _ _ _ _ h p ?_
      cases get_parent_id row with
      | none => exact hp
      | some q =>
        dsimp only
        by_cases hc : ps.contains q = true
        · rw [if_pos hc]; exact hp
        · rw [if_neg hc]; exact List.mem_append_left _ hp

theorem first_pass_parents_complete (rows : List Record) :
    ∀ env st ps st' ps', first_pass env rows st ps = Except.ok (st', ps') →
      ∀ row, row ∈ rows → ∀ p, get_parent_id row = some p → p ∈ ps' := by
  induction rows with
  | nil =>
    intro env st ps st' ps' h row hrow
    exact absurd hrow (by simp)
  | cons row0 rest ih =>
    intro env st ps st' ps' h row hrow p hp
    unfold first_pass at h
    cases hde : do_entity env row0 st with
    | error e => simp only [hde] at h; exact absurd h (by simp)
    | ok st1 =>
      simp only [hde] at h
      rcases List.mem_cons.mp hrow with hr0 | hrrest
      · subst hr0
        refine first_pass_parents_sub rest _ _ _ _ _ h p ?_
        rw [hp]
        dsimp only
        by_cases hc : ps.contains p = true
        · rw [if_pos hc]; simpa using hc
        · rw [if_neg hc]; exact List.mem_append_right _ (by simp)
      · exact ih _ _ _ _ _ h row hrrest p hp

theorem do_entity_fresh (env : Env) (myDict : Record) (st st' : RunState)
    (v : Value) (h : do_entity env myDict st = Except.ok st')
    (hid : dictGet myDict "id" = some v)
    (hnone : dictGet st.specs (pyStr v) = none) :
    ∃ g2, dictGet st'.specs (pyStr v) = some g2 ∧
      ∀ k, untouched_key k → dictGet g2 k = dictGet myDict k := by
  rcases do_entity_ok _ _ _ _ h with ⟨v2, hid2, _, _, _, hcase⟩
  have hv : v2 = v := by rw [hid] at hid2; injection hid2 with x; exact x.symm
  subst hv
  rcases hcase with ⟨_, g2, hg2, henr⟩ | ⟨g0, _, _, hg0, _⟩
  · refine ⟨g2, hg2, fun k hk => ?_⟩
    rw [henr k hk.1,
      mutate_row_get _ _ _ _ hk.2.2.1 hk.2.2.2.1 hk.2.2.2.2]
  · rw [hnone] at hg0; exact absurd hg0 (by simp)

theorem do_entity_keeps_absent (env : Env) (myDict : Record) (st st' : RunState)
    (v : Value) (h : do_entity env myDict st = Except.ok st')
    (hid : dictGet myDict "id" = some v) (j : String) (hj : j ≠ pyStr v)
    (hnone : dictGet st.specs j = none) : dictGet st'.specs j = none := by
  rcases do_entity_ok _ _ _ _ h with ⟨v2, hid2, _, _, hothers, _⟩
  have hv : v2 = v := by rw [hid] at hid2; injection hid2 with x; exact x.symm
  subst hv
  rw [hothers j hj]
  exact hnone

theorem first_pass_writeonce (rows : List Record) :
    ∀ env st ps st' ps', first_pass env rows st ps = Except.ok (st', ps') →
      ∀ i r, find_first_row rows i = some r → dictGet st.specs i = none →
        ∃ g, dictGet st'.specs i = some g ∧
          ∀ k, untouched_key k → dictGet g k = dictGet r k := by
  induction rows with
  | nil =>
    intro env st ps st' ps' h i r hr
    simp [find_first_row] at hr
  | cons row rest ih =>
    intro env st ps st' ps' h i r hr hnone
    unfold first_pass at h
    cases hde : do_entity env row st with
    | error e => simp only [hde] at h; exact absurd h (by simp)
    | ok st1 =>
      simp only [hde] at h
      rcases do_entity_ok _ _ _ _ hde with ⟨v, hid, _, _, _, _⟩
      by_cases hiv : pyStr v = i
      · have hpred : (fun row => ((dictGet row "id").map pyStr) == some i) row = true := by
          simp [hid, hiv]
        have hfr : find_first_row (row :: rest) i = some row := by
          unfold find_first_row
          exact List.find?_cons_of_pos _ hpred
        rw [hfr] at hr
        injection hr with hre
        subst hre
        subst hiv
        rcases do_entity_fresh _ _ _ _ _ hde hid hnone with ⟨g1, hg1, hk1⟩
        rcases first_pass_preserves rest _ _ _ _ _ h _ _ hg1 with ⟨g2, hg2, hk2⟩
        exact ⟨g2, hg2, fun k hk => by rw [hk2 k hk, hk1 k hk]⟩
      · have hpred : (fun row => ((dictGet row "id").map pyStr) == some i) row = false := by
          simp [hid]
          exact fun he => absurd he hiv
        have hfr : find_first_row (row :: rest) i = find_first_row rest i := by
          unfold find_first_row
          exact List.find?_cons_of_neg _ (by simp [hpred])
        rw [hfr] at hr
        have hnone1 : dictGet st1.specs i = none :=
          do_entity_keeps_absent _ _ _ _ _ hde hid i (fun he => hiv he.symm) hnone
        exact ih _ _ _ _ _ h i r hr hnone1

theorem backfill_preserves (ps : List String) :
    ∀ specs j g, dictGet specs j = some g →
      dictGet (backfill_parents ps specs) j = some g := by
  induction ps with
  | nil => intro specs j g hg; exact hg
  | cons p rest ih =>
    intro specs j g hg
    unfold backfill_parents
    by_cases hc : dictContains specs p = true
    · rw [if_pos hc]; exact ih _ _ _ hg
    · rw [if_neg hc]
      refine ih _ _ _ ?_
      have hpn : dictGet specs p = none :=
        dictContains_false_get _ _ (by simpa using hc)
      have hjp : j ≠ p := by
        intro he; subst he; rw [hg] at hpn; exact absurd hpn (by simp)
      rw [set_entity_default, if_neg (by simpa using hc), dictGet_set_ne _ _ _ _ hjp]
      exact hg

theorem backfill_contains_mono (ps : List String) :
    ∀ specs j, dictContains specs j = true →
      dictContains (backfill_parents ps specs) j = true := by
  intro specs j hj
  rcases dictContains_true_get _ _ hj with ⟨g, hg⟩
  rw [dictContains, backfill_preserves ps _ _ _ hg]
  rfl

theorem backfill_contains_of_mem (ps : List String) :
    ∀ specs p, p ∈ ps → dictContains (backfill_parents ps specs) p = true := by
  induction ps with
  | nil => intro specs p hp; exact absurd hp (by simp)
  | cons q rest ih =>
    intro specs p hp
    unfold backfill_parents
    rcases List.mem_cons.mp hp with hpq | hprest
    · subst hpq
      by_cases hc : dictContains specs p = true
      · rw [if_pos hc]; exact backfill_contains_mono rest _ _ hc
      · rw [if_neg hc]
        refine backfill_contains_mono rest _ _ ?_
        rw [set_entity_default, if_neg (by simpa using hc)]
        exact dictContains_set_self _ _ _
    · by_cases hc : dictContains specs q = true
      · rw [if_pos hc]; exact ih _ _ hprest
      · rw [if_neg hc]; exact ih _ _ hprest

theorem do_entities_ok (env : Env) (table : List Record) (st st' : RunState)
    (h : do_entities env table st = Except.ok st') :
    ∃ st1 ps, first_pass env table st [] = Except.ok (st1, ps) ∧
      st'.specs = backfill_parents ps st1.specs ∧
      st'.textQueries = st1.textQueries ∧ st'.synQueries = st1.synQueries := by
  unfold do_entities at h
  cases hf : first_pass env table st [] with
  | error e => rw [hf] at h; exact absurd h (by simp)
  | ok pr =>
    obtain ⟨st1, ps⟩ := pr
    simp only [hf] at h
    injection h with h2
    subst h2
    exact ⟨st1, ps, rfl, rfl, rfl, rfl⟩

theorem beq_false_ne {a b : Value} (h : Value.beq a b = false) : a ≠ b := by
  intro he
  subst he
  rw [Value.beqRefl a] at h
  exact absurd h (by simp)

theorem do_entity_no_dup (env : Env) (myDict : Record) (st st' : RunState)
    (h : do_entity env myDict st = Except.ok st')
    (hrow : dictGet myDict "other_parents" = none)
    (hinv : no_primary_dup st.specs) : no_primary_dup st'.specs := by
  intro j g2 p l hj hp hop
  rcases do_entity_ok _ _ _ _ h with ⟨v, _, _, _, hothers, hcase⟩
  by_cases hjv : j = pyStr v
  · subst hjv
    rcases hcase with ⟨_, g2f, hg2f, henr⟩ | ⟨g0, gm, g2e, hg0, hmp, hg2e, henr⟩
    · have hgg : g2f = g2 := by rw [hj] at hg2f; injection hg2f with x; exact x.symm
      subst hgg
      rw [henr "other_parents" (by decide),
        mutate_row_get _ _ _ _ (by decide) (by decide) (by decide), hrow] at hop
      exact absurd hop (by simp)
    · have hgg : g2e = g2 := by rw [hj] at hg2e; injection hg2e with x; exact x.symm
      subst hgg
      rw [henr "parent_id" (by decide)] at hp
      rw [henr "other_parents" (by decide)] at hop
      rcases merge_parents_ok _ _ _ hmp with ⟨hkeep, hdisj⟩
      have hpg0 : dictGet g0 "parent_id" = some p := by
        rw [← hkeep "parent_id" (by decide)]
        exact hp
      rcases hdisj with ⟨heq, _⟩ | ⟨pv, ev, l0, _, hev, _, _, hbeq, hl0, hopm⟩
      · subst heq
        exact hinv _ _ _ _ hg0 hpg0 hop
      · have hpev : p = ev := Option.some_inj.mp (hpg0.symm.trans hev)
        rw [hopm] at hop
        have hopl : l0 ++ [pv] = l := Value.vList.inj (Option.some_inj.mp hop)
        subst hopl
        intro hmem
        rcases List.mem_append.mp hmem with hin0 | hinpv
        · rcases hl0 with ⟨_, hl0e⟩ | hl0s
          · subst hl0e; simp at hin0
          · exact hinv _ _ _ _ hg0 hpg0 hl0s hin0
        · have hppv : p = pv := by simpa using hinpv
          exact beq_false_ne hbeq (hppv.symm.trans hpev)
  · rw [hothers j hjv] at hj
    exact hinv _ _ _ _ hj hp hop

theorem first_pass_no_dup (rows : List Record) :
    ∀ env st ps st' ps', first_pass env rows st ps = Except.ok (st', ps') →
      (∀ row, row ∈ rows → dictGet row "other_parents" = none) →
      no_primary_dup st.specs → no_primary_dup st'.specs := by
  induction rows with
  | nil =>
    intro env st ps st' ps' h hrows hinv
    unfold first_pass at h
    injection h with h2
    injection h2 with h3 h4
    subst h3
    exact hinv
  | cons row rest ih =>
    intro env st ps st' ps' h hrows hinv
    unfold first_pass at h
    cases hde : do_entity env row st with
    | error e => simp only [hde] at h; exact absurd h (by simp)
    | ok st1 =>
      simp only [hde] at h
      exact ih _ _ _ _ _ h (fun r hr => hrows r (List.mem_cons_of_mem row hr))
        (do_entity_no_dup _ _ _ _ hde (hrows row (List.mem_cons_self row rest)) hinv)

theorem backfill_no_dup (ps : List String) :
    ∀ specs, no_primary_dup specs → no_primary_dup (backfill_parents ps specs) := by
  induction ps with
  | nil => intro specs hinv; exact hinv
  | cons p rest ih =>
    intro specs hinv
    unfold backfill_parents
    by_cases hc : dictContains specs p = true
    · rw [if_pos hc]; exact ih _ hinv
    · rw [if_neg hc]
      refine ih _ ?_
      intro j g q l hj hq hop
      rw [set_entity_default, if_neg (by simpa using hc)] at hj
      by_cases hjp : j = p
      · subst hjp
        rw [dictGet_set_self] at hj
        injection hj with hje
        subst hje
        exact absurd hq (by simp [dictGet])
      · rw [dictGet_set_ne _ _ _ _ hjp] at hj
        exact hinv _ _ _ _ hj hq hop

/-- C1: processing the hierarchy row sequence [(T1, R, "Term One"),
(T2, R, "Term Two"), (T1, R2, "Term One")] through `do_entities` yields a
specifications table in which T1 has parent_id R and other_parents [R2],
T2 has parent_id R, and R and R2 are both present as stub records with
datatype "entity". -/
theorem claim_c1_end_to_end :
    getSpecField (do_entities envN c1rows st0) "T1" "parent_id" = some (Value.vStr "R") ∧
    getSpecField (do_entities envN c1rows st0) "T1" "other_parents"
      = some (Value.vList [Value.vStr "R2"]) ∧
    getSpecField (do_entities envN c1rows st0) "T2" "parent_id" = some (Value.vStr "R") ∧
    getSpecField (do_entities envN c1rows st0) "R" "id" = some (Value.vStr "R") ∧
    getSpecField (do_entities envN c1rows st0) "R" "datatype" = some (Value.vStr "entity") ∧
    getSpecField (do_entities envN c1rows st0) "R2" "id" = some (Value.vStr "R2") ∧
    getSpecField (do_entities envN c1rows st0) "R2" "datatype" = some (Value.vStr "entity") :=
  ⟨rfl, rfl, rfl, rfl, rfl, rfl, rfl⟩

/-- C2 counterexample: ingesting [(A,P1),(A,P2),(A,P2)] puts P2 into
`other_parents` twice, so the `other_parents` list does not contain each
additional parent at most once — a repeated additional parent is not
skipped. -/
theorem claim_c2_counterexample :
    getSpecField (do_entities envN c2dupRows st0) "A" "other_parents"
      = some (Value.vList [Value.vStr "P2", Value.vStr "P2"]) ∧
    ¬ (∀ l, getSpecField (do_entities envN c2dupRows st0) "A" "other_parents"
        = some (Value.vList l) → l.Nodup) :=
  ⟨rfl, fun h => absurd (h [Value.vStr "P2", Value.vStr "P2"] rfl) (by decide)⟩

/-- C2 amended: ingesting [(A,P1),(A,P1),(A,P2)] yields A.parent_id = P1
and A.other_parents = [P2] (a row whose parent equals the record's current
parent_id is skipped), and in any run from an empty table over rows without
a pre-seeded other_parents field the primary parent_id never occurs in
other_parents; but an additional parent repeated across rows is appended
once per row, without deduplication. -/
theorem claim_c2_amended :
    (getSpecField (do_entities envN c2rows st0) "A" "parent_id" = some (Value.vStr "P1") ∧
     getSpecField (do_entities envN c2rows st0) "A" "other_parents"
       = some (Value.vList [Value.vStr "P2"])) ∧
    (∀ env rows st st', st.specs = [] →
      (∀ row, row ∈ rows → dictGet row "other_parents" = none) →
      do_entities env rows st = Except.ok st' → no_primary_dup st'.specs) := by
  constructor
  · exact ⟨rfl, rfl⟩
  · intro env rows st st' hempty hrows h
    rcases do_entities_ok _ _ _ _ h with ⟨st1, ps, hf, hspecs, _, _⟩
    rw [hspecs]
    refine backfill_no_dup ps _ (first_pass_no_dup rows _ _ _ _ _ hf hrows ?_)
    intro j g p l hj
    rw [hempty] at hj
    exact absurd hj (by simp [dictGet])

/-- C2 amended, witness: the duplicate-parent run satisfies the invariant
that the primary parent is never in other_parents. -/
theorem claim_c2_amended_witness : no_primary_dup stC2dlit.specs :=
  claim_c2_amended.2 envN c2dupRows st0 stC2dlit rfl
    (by unfold c2dupRows; intro row hr; fin_cases hr <;> rfl) rfl

/-- C3 counterexample: in the run over rows [(T1,R),(T1,R2)], T1 is in the
final table but its text query ran twice, and R is in the final table (as a
backfilled stub) but its text query never ran — so the pipeline does not
issue the enrichment queries exactly once per id of the final table. -/
theorem claim_c3_counterexample :
    (do_entities envN c3rows st0).map (fun st => st.textQueries) = Except.ok ["T1", "T1"] ∧
    (do_entities envN c3rows st0).map (fun st => st.synQueries) = Except.ok ["T1", "T1"] ∧
    (do_entities envN c3rows st0).map (fun st => dictContains st.specs "T1") = Except.ok true ∧
    (do_entities envN c3rows st0).map (fun st => st.textQueries.count "T1") = Except.ok 2 ∧
    (do_entities envN c3rows st0).map (fun st => dictContains st.specs "R") = Except.ok true ∧
    (do_entities envN c3rows st0).map (fun st => st.textQueries.count "R") = Except.ok 0 :=
  ⟨rfl, rfl, rfl, rfl, rfl, rfl⟩

/-- C3 amended: the pipeline issues the text query and the synonym query
once per processed hierarchy row, parameterized by the row's id — so an id
appearing in several rows is enriched once per row, and backfilled stub
ids are never enriched. -/
theorem claim_c3_amended :
    ∀ env rows st st', do_entities env rows st = Except.ok st' →
      st'.textQueries = st.textQueries ++ rows.map rowId ∧
      st'.synQueries = st.synQueries ++ rows.map rowId := by
  intro env rows st st' h
  rcases do_entities_ok _ _ _ _ h with ⟨st1, ps, hf, _, htq, hsq⟩
  rcases first_pass_logs rows _ _ _ _ _ hf with ⟨h1, h2⟩
  rw [htq, hsq, h1, h2]
  exact ⟨rfl, rfl⟩

/-- C3 amended, witness: the two-row run issued its queries once per row. -/
theorem claim_c3_amended_witness :
    stC3lit.textQueries = st0.textQueries ++ c3rows.map rowId ∧
    stC3lit.synQueries = st0.synQueries ++ c3rows.map rowId :=
  claim_c3_amended envN c3rows st0 stC3lit rfl

/-- C4: for any hierarchy row set processed by `do_entities`, every parent
id referenced by any row ends up as a key of the final specifications
table. -/
theorem claim_c4_backfill_complete :
    ∀ env rows st st', do_entities env rows st = Except.ok st' →
      ∀ row, row ∈ rows → ∀ p, get_parent_id row = some p →
        dictContains st'.specs p = true := by
  intro env rows st st' h row hrow p hp
  rcases do_entities_ok _ _ _ _ h with ⟨st1, ps, hf, hspecs, _, _⟩
  rw [hspecs]
  exact backfill_contains_of_mem ps _ p
    (first_pass_parents_complete rows _ _ _ _ _ hf row hrow p hp)

/-- C4, witness: parent R of the first row of the two-row run is a key of
the final table. -/
theorem claim_c4_backfill_complete_witness : dictContains stC3lit.specs "R" = true :=
  claim_c4_backfill_complete envN c3rows st0 stC3lit rfl (hrow "T1" "R" "x")
    (by unfold c3rows; exact List.mem_cons_self _ _) "R" rfl

/-- C5: in a run from an empty table, the final parent_id of each id equals
the parent_id carried by the first row whose subject is that id; the merge
of a later row for an existing id never changes the existing record's
parent_id, and when the later row carries a truthy parent different from
the existing truthy parent it is appended to other_parents. -/
theorem claim_c5_parent_write_once :
    (∀ env rows st st', st.specs = [] → do_entities env rows st = Except.ok st' →
      ∀ i r, find_first_row rows i = some r →
        ∃ g, dictGet st'.specs i = some g ∧
          dictGet g "parent_id" = dictGet r "parent_id") ∧
    (∀ existing d3 ex2, merge_parents existing d3 = Except.ok ex2 →
      dictGet ex2 "parent_id" = dictGet existing "parent_id") ∧
    (∀ existing d3 ex2 pv ev, merge_parents existing d3 = Except.ok ex2 →
      dictGet d3 "parent_id" = some pv → dictGet existing "parent_id" = some ev →
      truthy pv = true → truthy ev = true → Value.beq pv ev = false →
      ∃ l, ((dictGet existing "other_parents" = none ∧ l = []) ∨
          dictGet existing "other_parents" = some (Value.vList l)) ∧
        dictGet ex2 "other_parents" = some (Value.vList (l ++ [pv]))) := by
  refine ⟨?_, ?_, ?_⟩
  · intro env rows st st' hempty h i r hr
    rcases do_entities_ok _ _ _ _ h with ⟨st1, ps, hf, hspecs, _, _⟩
    have hnone : dictGet st.specs i = none := by rw [hempty]; rfl
    rcases first_pass_writeonce rows _ _ _ _ _ hf i r hr hnone with ⟨g, hg, hk⟩
    refine ⟨g, ?_, hk "parent_id" (by decide)⟩
    rw [hspecs]
    exact backfill_preserves ps _ _ _ hg
  · intro existing d3 ex2 h
    exact (merge_parents_ok _ _ _ h).1 "parent_id" (by decide)
  · intro existing d3 ex2 pv ev h hpv hev htp hte hbeq
    rcases merge_parents_ok _ _ _ h with ⟨_, hdisj⟩
    rcases hdisj with ⟨_, hfalse⟩ | ⟨pv2, ev2, l, hpv2, hev2, _, _, _, hl, hop⟩
    · have hx := hfalse pv ev hpv hev
      rw [htp, hte, hbeq] at hx
      simp at hx
    · have hpp : pv2 = pv := Option.some_inj.mp (hpv2.symm.trans hpv)
      subst hpp
      exact ⟨l, hl, hop⟩

/-- C5, witness: in the C1 run T1 keeps the parent of its first row, and a
concrete merge with a new parent leaves parent_id untouched. -/
theorem claim_c5_parent_write_once_witness :
    (∃ g, dictGet stC1lit.specs "T1" = some g ∧
      dictGet g "parent_id" = dictGet (hrow "T1" "R" "Term One") "parent_id") ∧
    (dictGet [("parent_id", Value.vStr "R"), ("other_parents", Value.vList [Value.vStr "Q"])]
        "parent_id"
      = dictGet [("parent_id", Value.vStr "R")] "parent_id") ∧
    (∃ l, ((dictGet [("parent_id", Value.vStr "R")] "other_parents" = none ∧ l = []) ∨
        dictGet [("parent_id", Value.vStr "R")] "other_parents" = some (Value.vList l)) ∧
      dictGet [("parent_id", Value.vStr "R"), ("other_parents", Value.vList [Value.vStr "Q"])]
          "other_parents"
        = some (Value.vList (l ++ [Value.vStr "Q"]))) :=
  ⟨claim_c5_parent_write_once.1 envN c1rows st0 stC1lit rfl rfl "T1"
      (hrow "T1" "R" "Term One") rfl,
   claim_c5_parent_write_once.2.1 [("parent_id", Value.vStr "R")]
      [("parent_id", Value.vStr "Q")]
      [("parent_id", Value.vStr "R"), ("other_parents", Value.vList [Value.vStr "Q"])] rfl,
   claim_c5_parent_write_once.2.2 [("parent_id", Value.vStr "R")]
      [("parent_id", Value.vStr "Q")]
      [("parent_id", Value.vStr "R"), ("other_parents", Value.vList [Value.vStr "Q"])]
      (Value.vStr "Q") (Value.vStr "R") rfl rfl rfl rfl rfl rfl⟩

/-- C6: in a run from an empty table where backfill follows all structural
ingestion, an id that also appears as a full structural row ends up with
that row's structural data (its first row's parent_id, and no stub
datatype marker when the row carried none), and stub insertion never
overwrites an existing record. -/
theorem claim_c6_stub_precedence :
    (∀ env rows st st' P r, st.specs = [] → do_entities env rows st = Except.ok st' →
      find_first_row rows P = some r → dictGet r "datatype" = none →
      ∃ g, dictGet st'.specs P = some g ∧
        dictGet g "parent_id" = dictGet r "parent_id" ∧
        dictGet g "datatype" = none) ∧
    (∀ ps specs j g, dictGet specs j = some g →
      dictGet (backfill_parents ps specs) j = some g) := by
  constructor
  · intro env rows st st' P r hempty h hr hdt
    rcases do_entities_ok _ _ _ _ h with ⟨st1, ps, hf, hspecs, _, _⟩
    have hnone : dictGet st.specs P = none := by rw [hempty]; rfl
    rcases first_pass_writeonce rows _ _ _ _ _ hf P r hr hnone with ⟨g, hg, hk⟩
    refine ⟨g, ?_, hk "parent_id" (by decide), by rw [hk "datatype" (by decide)]; exact hdt⟩
    rw [hspecs]
    exact backfill_preserves ps _ _ _ hg
  · intro ps specs j g hg
    exact backfill_preserves ps specs j g hg

/-- C6, witness: P — referenced as a parent by the first row and described
by the second — ends up with parent_id Q and no stub datatype, and a
backfill pass over a table already holding X keeps X's record. -/
theorem claim_c6_stub_precedence_witness :
    (∃ g, dictGet stC6lit.specs "P" = some g ∧
      dictGet g "parent_id" = dictGet (hrow "P" "Q" "p") "parent_id" ∧
      dictGet g "datatype" = none) ∧
    dictGet (backfill_parents ["X"] stX.specs) "X" = some [("id", Value.vStr "X")] :=
  ⟨claim_c6_stub_precedence.1 envN c6rows st0 stC6lit "P" (hrow "P" "Q" "p") rfl rfl rfl rfl,
   claim_c6_stub_precedence.2 ["X"] stX.specs "X" [("id", Value.vStr "X")] rfl⟩

/-- C7: enriching id X with exact_synonym "foo;bar" and later with "baz"
yields the phrase list ["foo","bar","baz"], and a synonym enrichment is
append-only on every record: every list-valued field reappears with its
original elements first, in order. -/
theorem claim_c7_synonym_append_only :
    (getSpecField ((do_entity_synonyms env7a "X" stX).bind
        (fun st => do_entity_synonyms env7b "X" st)) "X" "exact:synonym"
      = some (Value.vList [Value.vStr "foo", Value.vStr "bar", Value.vStr "baz"])) ∧
    (∀ env i st st', do_entity_synonyms env i st = Except.ok st' →
      ∀ j g, dictGet st.specs j = some g →
        ∃ g2, dictGet st'.specs j = some g2 ∧ appends_only g g2) := by
  constructor
  · rfl
  · intro env i st st' h j g hg
    rcases do_entity_synonyms_ok _ _ _ _ h with ⟨_, _, hothers, g0, g2, hg0, hg2, _, hao⟩
    by_cases hj : j = i
    · subst hj
      have hgg : g0 = g := by rw [hg] at hg0; injection hg0 with x; exact x.symm
      subst hgg
      exact ⟨g2, hg2, hao⟩
    · exact ⟨g, by rw [hothers j hj]; exact hg, appends_only_refl g⟩

/-- C7, witness: the first enrichment of X is append-only on X's record. -/
theorem claim_c7_synonym_append_only_witness :
    ∃ g2, dictGet st7lit.specs "X" = some g2 ∧
      appends_only [("id", Value.vStr "X")] g2 :=
  claim_c7_synonym_append_only.2 env7a "X" stX st7lit rfl "X" [("id", Value.vStr "X")] rfl

/-- C8 counterexample: the raw value "foo; bar" yields the phrases
["foo", " bar"] — the space after the delimiter survives, because the code
strips only the ends of the whole raw value, not each phrase. -/
theorem claim_c8_counterexample :
    getSpecField (do_entity_synonyms env8 "X" stX) "X" "exact:synonym"
      = some (Value.vList [Value.vStr "foo", Value.vStr " bar"]) ∧
    getSpecField (do_entity_synonyms env8 "X" stX) "X" "exact:synonym"
      ≠ some (Value.vList [Value.vStr "foo", Value.vStr "bar"]) :=
  ⟨rfl, by decide⟩

/-- C8 amended: for each recognized synonym category with a non-empty raw
value the enrichment replaces embedded backslash-n escape sequences by the
delimiter, strips stray double quotes, trims surrounding whitespace of the
whole raw value only, and splits on the delimiter — so "foo\\nbar",
"\"foo\";bar" and "  foo;bar  " all yield ["foo","bar"], while "foo; bar"
yields ["foo"," bar"] with the interior space kept. -/
theorem claim_c8_amended :
    getSpecField (do_entity_synonyms env8 "X" stX) "X" "synonym"
      = some (Value.vList [Value.vStr "foo", Value.vStr "bar"]) ∧
    getSpecField (do_entity_synonyms env8 "X" stX) "X" "broad:synonym"
      = some (Value.vList [Value.vStr "foo", Value.vStr "bar"]) ∧
    getSpecField (do_entity_synonyms env8 "X" stX) "X" "narrow:synonym"
      = some (Value.vList [Value.vStr "foo", Value.vStr "bar"]) ∧
    getSpecField (do_entity_synonyms env8 "X" stX) "X" "exact:synonym"
      = some (Value.vList [Value.vStr "foo", Value.vStr " bar"]) :=
  ⟨rfl, rfl, rfl, rfl⟩

/-- C9 counterexample: invoking `do_entity_text` with an id absent from the
table while the text query returns no rows silently succeeds without
touching the table, instead of raising a KeyError. -/
theorem claim_c9_counterexample :
    dictGet st0.specs "X" = none ∧
    do_entity_text envN "X" st0 = Except.ok ⟨[], ["X"], []⟩ :=
  ⟨rfl, rfl⟩

/-- C9 amended: `do_entity_synonyms` always raises a KeyError for an id
absent from the table; `do_entity_text` raises a KeyError for an absent id
exactly when the text query returns at least one row; and the branch is
unreachable in the pipeline because the structural merge always leaves the
row's id in the table before the enrichments run. -/
theorem claim_c9_amended :
    (∀ env i st, dictGet st.specs i = none →
      do_entity_synonyms env i st = Except.error "KeyError: specifications") ∧
    (∀ env i st row rest, dictGet st.specs i = none → env.textQuery i = row :: rest →
      do_entity_text env i st = Except.error "KeyError: specifications") ∧
    (∀ env myDict specs i specs1,
      do_entity_merge env myDict specs = Except.ok (i, specs1) →
      dictContains specs1 i = true) := by
  refine ⟨do_entity_synonyms_absent, do_entity_text_absent_rows, ?_⟩
  intro env myDict specs i specs1 h
  rcases do_entity_merge_ok _ _ _ _ _ h with ⟨v, _, _, _, hc, _⟩
  exact hc

/-- C9 amended, witness: concrete absent-id calls raise, and a concrete
merge leaves its id in the table. -/
theorem claim_c9_amended_witness :
    do_entity_synonyms envN "X" st0 = Except.error "KeyError: specifications" ∧
    do_entity_text envT "X" st0 = Except.error "KeyError: specifications" ∧
    dictContains [("A", hrow "A" "P" "x")] "A" = true :=
  ⟨claim_c9_amended.1 envN "X" st0 rfl,
   claim_c9_amended.2.1 envT "X" st0 ⟨none, none, none, none⟩ [] rfl rfl,
   claim_c9_amended.2.2 envN (hrow "A" "P" "x") [] "A" [("A", hrow "A" "P" "x")] rfl⟩

/-- C10: `do_entity` raises a KeyError when the incoming row's id already
exists in the table as a record without a parent_id key (a backfilled
stub), aborting the merge — as happens when a later root's hierarchy pass
returns a full row for an id stubbed during an earlier root's backfill. -/
theorem claim_c10_stub_merge_keyerror :
    (∀ env myDict st v pv g, dictGet myDict "id" = some v →
      dictGet myDict "parent_id" = some pv →
      dictGet st.specs (pyStr v) = some g →
      dictGet g "parent_id" = none →
      do_entity env myDict st = Except.error "KeyError: parent_id") ∧
    ((do_entities envN [hrow "T1" "P" "x"] st0).bind
        (fun st1 => do_entities envN [hrow "P" "Q" "y"] st1)
      = Except.error "KeyError: parent_id") := by
  constructor
  · intro env myDict st v pv g hid hpv hg hgp
    have hd3 : dictGet (mutate_row env myDict (pyStr v)) "parent_id" = some pv := by
      rw [mutate_row_get env myDict (pyStr v) "parent_id" (by decide) (by decide) (by decide)]
      exact hpv
    have hmp : merge_parents g (mutate_row env myDict (pyStr v))
        = Except.error "KeyError: parent_id" := by
      unfold merge_parents
      simp only [hd3, hgp]
    have hdm : do_entity_merge env myDict st.specs
        = Except.error "KeyError: parent_id" := by
      unfold do_entity_merge
      simp only [hid, hg, hmp]
    unfold do_entity
    simp only [hdm]
  · rfl

/-- C10, witness: a row for P hitting a table where P is a stub aborts. -/
theorem claim_c10_stub_merge_keyerror_witness :
    do_entity envN (hrow "P" "Q" "y") stP = Except.error "KeyError: parent_id" :=
  claim_c10_stub_merge_keyerror.1 envN (hrow "P" "Q" "y") stP (Value.vStr "P")
    (Value.vStr "Q") [("id", Value.vStr "P"), ("datatype", Value.vStr "entity")] rfl rfl rfl rfl
